import Mathlib

/-!
Verification of the resume-template analyzer (`TemplateAnalyzer` in the
application source) against its natural-language specification.

The analyzer is a deterministic pixel-statistics pipeline over an RGBA
buffer.  We embed it shallowly: the flat `Uint8ClampedArray` of the canvas
`ImageData` is modelled by a pixel function together with width/height
(every array access in the source has the shape `data[(y*width+x)*4 + c]`,
so the two views coincide on all in-bounds accesses, and the source's
explicit bounds guards are kept).  JavaScript floating-point arithmetic is
modelled exactly over `ℚ`; in all comparisons performed by the code the
operands are rationals obtained from integer pixel data, where the double
computations agree with the exact rational values except possibly on
knife-edge ties, which are noted where relevant.  Luminance
`0.299*R + 0.587*G + 0.114*B` is kept in `ℕ` scaled by 1000
(`299*R + 587*G + 114*B`), and every threshold comparison against it is
scaled accordingly, which is exact.
-/

namespace ResumeAnalyzer

/-- One RGBA sample: 8-bit channels of the decoded raster. -/
structure RGBA where
  r : ℕ
  g : ℕ
  b : ℕ
  a : ℕ
deriving DecidableEq, Repr

/-- The canvas `ImageData` handed to every analysis step: a width×height
grid of RGBA samples, origin top-left. -/
structure ImageData where
  width : ℕ
  height : ℕ
  pixel : ℕ → ℕ → RGBA

/-- Pixel at flat pixel index `p` (the source reads byte index `4*p`). -/
def dataAt (img : ImageData) (p : ℕ) : RGBA :=
  img.pixel (p % img.width) (p / img.width)

/-- Source `getGrayscale`: `0.299*r + 0.587*g + 0.114*b`, scaled by 1000 to
stay in `ℕ`.  All comparisons against it in the source are against the
constants 240, 200 and 30, which we scale to 240000, 200000 and 30000. -/
def grayscale1000 (px : RGBA) : ℕ :=
  299 * px.r + 587 * px.g + 114 * px.b

/-- Scaled luminance of the pixel at flat index `p`. -/
def gray1000At (img : ImageData) (p : ℕ) : ℕ :=
  grayscale1000 (dataAt img p)

/-! ## Color palette extractor (`extractColorPalette`) -/

/-- Channel quantization `Math.floor(v/20)*20` used to build the color key. -/
def bucket (v : ℕ) : ℕ := v / 20 * 20

/-- The color key `` `${floor(r/20)*20},${floor(g/20)*20},${floor(b/20)*20}` ``
of a sample.  Two samples get the same key string iff they get the same
triple, so we model the key by the triple itself. -/
def colorKey (px : RGBA) : ℕ × ℕ × ℕ :=
  (bucket px.r, bucket px.g, bucket px.b)

/-- One step of `colorMap.set(key, (colorMap.get(key) || 0) + 1)`; a JS `Map`
keeps insertion order, so it is modelled by an association list where a new
key is appended at the end. -/
def mapInc (m : List ((ℕ × ℕ × ℕ) × ℕ)) (k : ℕ × ℕ × ℕ) :
    List ((ℕ × ℕ × ℕ) × ℕ) :=
  if m.any (fun e => e.1 == k) then
    m.map (fun e => if e.1 == k then (e.1, e.2 + 1) else e)
  else
    m ++ [(k, 1)]

/-- Flat pixel indices visited by the sampling loop
`for (i = 0; i < data.length; i += 4*sampleRate)` with `sampleRate = 10`:
every 10th pixel index below `width*height`. -/
def sampleIndices (img : ImageData) : List ℕ :=
  (List.range (img.width * img.height)).filter (fun p => p % 10 == 0)

/-- One sample of the loop body: samples with alpha < 128 are skipped,
others bump their quantized color key. -/
def paletteStep (img : ImageData) (m : List ((ℕ × ℕ × ℕ) × ℕ)) (p : ℕ) :
    List ((ℕ × ℕ × ℕ) × ℕ) :=
  let px := dataAt img p
  if px.a < 128 then m else mapInc m (colorKey px)

/-- The frequency map built by the sampling loop. -/
def colorMap (img : ImageData) : List ((ℕ × ℕ × ℕ) × ℕ) :=
  (sampleIndices img).foldl (paletteStep img) []

/-- Stable insertion (by descending count) used to model the stable JS
`Array.prototype.sort((a, b) => b[1] - a[1])`. -/
def insertByCount (x : (ℕ × ℕ × ℕ) × ℕ) :
    List ((ℕ × ℕ × ℕ) × ℕ) → List ((ℕ × ℕ × ℕ) × ℕ)
  | [] => [x]
  | y :: ys => if y.2 ≤ x.2 then x :: y :: ys else y :: insertByCount x ys

/-- Stable sort by descending count. -/
def sortByCountDesc : List ((ℕ × ℕ × ℕ) × ℕ) → List ((ℕ × ℕ × ℕ) × ℕ)
  | [] => []
  | x :: xs => insertByCount x (sortByCountDesc xs)

/-- Source `rgbToHex`:
`"#" + ((1 << 24) + (r << 16) + (g << 8) + b).toString(16).slice(1)`. -/
def rgbToHex (r g b : ℕ) : String :=
  "#" ++ String.mk ((Nat.toDigits 16 (2 ^ 24 + r * 2 ^ 16 + g * 2 ^ 8 + b)).drop 1)

/-- A palette entry as produced by `extractColorPalette`. -/
structure ColorSwatch where
  rgb : String
  hex : String
  frequency : ℕ
deriving DecidableEq, Repr

/-- Decoding a map entry back into a swatch: the key is split back into the
bucket-floor channels and rendered as `rgb(r, g, b)` and hex strings. -/
def mkSwatch (e : (ℕ × ℕ × ℕ) × ℕ) : ColorSwatch :=
  { rgb := s!"rgb({e.1.1}, {e.1.2.1}, {e.1.2.2})"
    hex := rgbToHex e.1.1 e.1.2.1 e.1.2.2
    frequency := e.2 }

/-- Source `extractColorPalette`: sample every 10th pixel, skip alpha < 128,
quantize channels to bucket floors, count, sort by descending frequency,
take the top 8, decode. -/
def extractColorPalette (img : ImageData) : List ColorSwatch :=
  ((sortByCountDesc (colorMap img)).take 8).map mkSwatch

/-! ## Text region detector (`detectTextRegions`, `calculateTextScore`,
`mergeTextRegions`, `areRegionsAdjacent`, `calculateBoundingBox`) -/

/-- A text block (raw candidate cell or merged cluster). -/
structure TextBlock where
  x : ℕ
  y : ℕ
  width : ℕ
  height : ℕ
  confidence : ℚ
deriving DecidableEq, Repr

/-- The values taken by a loop `for (v = 0; v < n - 20; v += 20)`: the
multiples of 20 strictly below `n - 20` (empty when `n ≤ 20`). -/
def grid20 (n : ℕ) : List ℕ :=
  (List.range (n - 20)).filter (fun v => v % 20 == 0)

/-- Candidate cell origins scanned by `detectTextRegions`, in source order
(row-major: the `y` loop is outer). -/
def candidateCells (img : ImageData) : List (ℕ × ℕ) :=
  (grid20 img.height).flatMap (fun y => (grid20 img.width).map (fun x => (x, y)))

/-- One interior pixel of the `calculateTextScore` loop: accumulator is
`(edgeCount, totalPixels, contrastSum*1000)`.  The source's byte-index
guard `idx >= data.length` is kept as a flat-pixel-index guard
(byte index `4*p` out of bounds iff `p ≥ width*height`). -/
def scoreCellStep (img : ImageData) (x y dy : ℕ) (acc : ℕ × ℕ × ℕ) (dx : ℕ) :
    ℕ × ℕ × ℕ :=
  let len := img.width * img.height
  let p1 := (y + dy) * img.width + (x + dx)
  let p2 := (y + dy) * img.width + (x + dx + 1)
  let p3 := (y + dy + 1) * img.width + (x + dx)
  if len ≤ p1 ∨ len ≤ p2 ∨ len ≤ p3 then acc
  else
    let cur := gray1000At img p1
    let right := gray1000At img p2
    let below := gray1000At img p3
    let hEdge := Nat.dist cur right
    let vEdge := Nat.dist cur below
    ((if 30000 < hEdge ∨ 30000 < vEdge then acc.1 + 1 else acc.1),
      acc.2.1 + 1,
      acc.2.2 + max hEdge vEdge)

/-- One `dy` row of the `calculateTextScore` loop (`dx ∈ [0, 18]`). -/
def scoreRowFold (img : ImageData) (x y : ℕ) (acc : ℕ × ℕ × ℕ) (dy : ℕ) : ℕ × ℕ × ℕ :=
  (List.range 19).foldl (scoreCellStep img x y dy) acc

/-- The accumulating loop of `calculateTextScore` over `dy, dx ∈ [0, 18]`
(`size - 1 = 19` iterations each). -/
def scoreStats (img : ImageData) (x y : ℕ) : ℕ × ℕ × ℕ :=
  (List.range 19).foldl (scoreRowFold img x y) (0, 0, 0)

/-- Source `calculateTextScore`:
`min(edgeRatio*2, 1) * min(avgContrast/100, 1)` with
`edgeRatio = edgeCount/totalPixels`, `avgContrast = contrastSum/totalPixels`
(our contrast sum is scaled by 1000, hence the division by 1000). -/
def calculateTextScore (img : ImageData) (x y : ℕ) : ℚ :=
  let s := scoreStats img x y
  let edgeRatio : ℚ := (s.1 : ℚ) / (s.2.1 : ℚ)
  let avgContrast : ℚ := (s.2.2 : ℚ) / 1000 / (s.2.1 : ℚ)
  min (edgeRatio * 2) 1 * min (avgContrast / 100) 1

/-- The raw candidate blocks pushed by `detectTextRegions`: 20×20 cells
whose text score exceeds 0.3. -/
def rawTextRegions (img : ImageData) : List TextBlock :=
  (candidateCells img).filterMap
    (fun c =>
      let s := calculateTextScore img c.1 c.2
      if (3 / 10 : ℚ) < s then some ⟨c.1, c.2, 20, 20, s⟩ else none)

/-- Source `areRegionsAdjacent` with its 30-pixel tolerance; the JS
subtraction may go negative, so the comparisons are over `ℤ`. -/
def areRegionsAdjacent (r1 r2 : TextBlock) : Bool :=
  let hOverlap := !(decide ((r1.x : ℤ) + r1.width < (r2.x : ℤ) - 30)
      || decide ((r2.x : ℤ) + r2.width < (r1.x : ℤ) - 30))
  let vOverlap := !(decide ((r1.y : ℤ) + r1.height < (r2.y : ℤ) - 30)
      || decide ((r2.y : ℤ) + r2.height < (r1.y : ℤ) - 30))
  hOverlap && vOverlap

/-- Source `calculateBoundingBox` over a group of regions: min/max corners
and the maximum confidence.  The source is only ever called with a
non-empty group (the cluster seed is always a member); the `[]` case is
unreachable and returns a dummy. -/
def calculateBoundingBox : List TextBlock → TextBlock
  | [] => ⟨0, 0, 0, 0, 0⟩
  | r :: rest =>
    let minX := rest.foldl (fun m b => min m b.x) r.x
    let minY := rest.foldl (fun m b => min m b.y) r.y
    let maxX := rest.foldl (fun m b => max m (b.x + b.width)) (r.x + r.width)
    let maxY := rest.foldl (fun m b => max m (b.y + b.height)) (r.y + r.height)
    { x := minX
      y := minY
      width := maxX - minX
      height := maxY - minY
      confidence := rest.foldl (fun m b => max m b.confidence) r.confidence }

/-- Fallback block for out-of-range index accesses (never reached for
indices produced by the merge loops). -/
def defaultBlock : TextBlock := ⟨0, 0, 0, 0, 0⟩

/-- One iteration of the outer merge loop of `mergeTextRegions`: visiting
index `i`, absorbing every unvisited later index whose block is adjacent to
the SEED block `regions[i]` (single-hop clustering, as in the source), and
emitting the cluster's bounding box.  State: (visited indices, output). -/
def mergeStep (regions : List TextBlock) (st : List ℕ × List TextBlock) (i : ℕ) :
    List ℕ × List TextBlock :=
  if i ∈ st.1 then st
  else
    let seed := regions.getD i defaultBlock
    let js := (List.range regions.length).filter
      (fun j => decide (i < j) && decide (j ∉ st.1)
        && areRegionsAdjacent seed (regions.getD j defaultBlock))
    let group := seed :: js.map (fun j => regions.getD j defaultBlock)
    (st.1 ++ i :: js, st.2 ++ [calculateBoundingBox group])

/-- Source `mergeTextRegions`: a single pass with a visited set. -/
def mergeTextRegions (regions : List TextBlock) : List TextBlock :=
  ((List.range regions.length).foldl (mergeStep regions) ([], [])).2

/-- Source `detectTextRegions`: score the candidate grid, keep cells with
score > 0.3, merge adjacent cells. -/
def detectTextRegions (img : ImageData) : List TextBlock :=
  mergeTextRegions (rawTextRegions img)

/-! ## Layout analyzer: sections (`detectSections`) -/

/-- A detected content section. -/
structure Section where
  type : String
  x : ℕ
  y : ℕ
  width : ℕ
  height : ℕ
deriving DecidableEq, Repr

/-- `horizontalProfile[y]`: number of pixels in row `y` with luminance
< 240 ("non-white"). -/
def rowContentCount (img : ImageData) (y : ℕ) : ℕ :=
  (List.range img.width).countP (fun x => decide (grayscale1000 (img.pixel x y) < 240000))

/-- Row `y` "has content": `horizontalProfile[y] > width * 0.1`, i.e.
`10 * count > width` exactly over the rationals. -/
def rowHasContent (img : ImageData) (y : ℕ) : Bool :=
  decide (img.width < 10 * rowContentCount img y)

/-- State of the section scan: sections found so far, current section start
row, and whether a section is open. -/
structure SectionScanState where
  sections : List Section
  sectionStart : ℕ
  inSection : Bool
deriving DecidableEq, Repr

/-- One row of the section scan of `detectSections`; a closing section is
kept only when its height exceeds `height * 0.05` (`20 * h > height`
exactly over the rationals). -/
def sectionStep (img : ImageData) (st : SectionScanState) (y : ℕ) : SectionScanState :=
  if rowHasContent img y then
    if st.inSection then st
    else ⟨st.sections, y, true⟩
  else
    if st.inSection then
      let sectionHeight := y - st.sectionStart
      if img.height < 20 * sectionHeight then
        ⟨st.sections ++ [⟨"content", 0, st.sectionStart, img.width, sectionHeight⟩],
          st.sectionStart, false⟩
      else ⟨st.sections, st.sectionStart, false⟩
    else st

/-- Source `detectSections`; the trailing open section (if any) is flushed
unconditionally, with no minimum-height check, as in the source. -/
def detectSections (img : ImageData) : List Section :=
  let final := (List.range img.height).foldl (sectionStep img) ⟨[], 0, false⟩
  if final.inSection then
    final.sections ++
      [⟨"content", 0, final.sectionStart, img.width, img.height - final.sectionStart⟩]
  else final.sections

/-! ## Layout analyzer: grid (`detectGridStructure`) -/

/-- Grid info; `guttersHorizontal` is the field the source names
`gutters.horizontal` (it receives the average vertical gap) and
`guttersVertical` the field `gutters.vertical` (it receives the left-edge
gap). -/
structure GridInfo where
  columns : ℕ
  rows : ℕ
  guttersHorizontal : ℚ
  guttersVertical : ℕ
deriving DecidableEq, Repr

/-- Stable ascending insertion, modelling the JS numeric sort
`sort((a, b) => a - b)`. -/
def insertAsc (x : ℕ) : List ℕ → List ℕ
  | [] => [x]
  | y :: ys => if x ≤ y then x :: y :: ys else y :: insertAsc x ys

/-- Ascending sort of a list of naturals. -/
def sortAsc : List ℕ → List ℕ
  | [] => []
  | x :: xs => insertAsc x (sortAsc xs)

/-- `Math.round(x / 10) * 10` for a natural `x` (round half up). -/
def round10 (x : ℕ) : ℕ := (x + 5) / 10 * 10

/-- `[...new Set(l)]`: deduplication keeping first occurrences, in order.
Structural-recursive formulation with an explicit seen-accumulator. -/
def dedupKFAux [DecidableEq α] (seen : List α) : List α → List α
  | [] => []
  | x :: xs => if x ∈ seen then dedupKFAux seen xs else x :: dedupKFAux (seen ++ [x]) xs

/-- `[...new Set(l)]`. -/
def dedupKeepFirst [DecidableEq α] (l : List α) : List α := dedupKFAux [] l

/-- Source `detectGridStructure`, a function of the merged text blocks
stored in `analysisResults.layout.textBlocks`.  Note the field assignment:
the average vertical gap goes into `gutters.horizontal` and the left-edge
gap into `gutters.vertical`, exactly as in the source. -/
def detectGridStructure (textBlocks : List TextBlock) : GridInfo :=
  if textBlocks.length < 2 then ⟨1, 1, 0, 0⟩
  else
    let leftAlignments := sortAsc (textBlocks.map TextBlock.x)
    let uniqueLefts := dedupKeepFirst (leftAlignments.map round10)
    let topAlignments := sortAsc (textBlocks.map TextBlock.y)
    let verticalGaps : List ℕ := List.zipWith (fun a b => a - b) topAlignments.tail topAlignments
    let avgVerticalGap : ℚ :=
      if 0 < verticalGaps.length then (verticalGaps.sum : ℚ) / (verticalGaps.length : ℚ)
      else 0
    { columns := uniqueLefts.length
      rows := (textBlocks.length + uniqueLefts.length - 1) / uniqueLefts.length
      guttersHorizontal := avgVerticalGap
      guttersVertical :=
        if 1 < uniqueLefts.length then uniqueLefts.getD 1 0 - uniqueLefts.getD 0 0 else 0 }

/-! ## Layout analyzer: margins (`detectMargins`) -/

/-- Margins in pixels from each edge to the first content row/column. -/
structure Margins where
  top : ℕ
  bottom : ℕ
  left : ℕ
  right : ℕ
deriving DecidableEq, Repr

/-- Row `y` contains at least one pixel with luminance < 240. -/
def rowAnyContent (img : ImageData) (y : ℕ) : Bool :=
  (List.range img.width).any (fun x => decide (grayscale1000 (img.pixel x y) < 240000))

/-- Column `x` contains at least one pixel with luminance < 240. -/
def colAnyContent (img : ImageData) (x : ℕ) : Bool :=
  (List.range img.height).any (fun y => decide (grayscale1000 (img.pixel x y) < 240000))

/-- Source `detectMargins`: scan inward from each edge until a content
row/column is hit; an entirely blank image leaves every margin 0. -/
def detectMargins (img : ImageData) : Margins :=
  { top := ((List.range img.height).find? (rowAnyContent img)).getD 0
    bottom :=
      (((List.range img.height).reverse.find? (rowAnyContent img)).map
        (fun y => img.height - 1 - y)).getD 0
    left := ((List.range img.width).find? (colAnyContent img)).getD 0
    right :=
      (((List.range img.width).reverse.find? (colAnyContent img)).map
        (fun x => img.width - 1 - x)).getD 0 }

/-! ## Design element detector (`detectDesignElements`) -/

/-- One emitted horizontal line `{x: lineStart, y, length, thickness: 1}`.
`x` is `ℤ` because the source variable `lineStart` carries the sentinel
`-1` (pushes always happen with a set start, but the variable's type is
the JS number). -/
structure HLine where
  x : ℤ
  y : ℕ
  length : ℕ
  thickness : ℕ
deriving DecidableEq, Repr

/-- State of a row scan: emitted lines, `lineStart` (`-1` = no open run),
`lineLength`. -/
structure RunState where
  lines : List HLine
  lineStart : ℤ
  lineLength : ℕ
deriving DecidableEq, Repr

/-- One pixel of the horizontal-line scan: dark pixels (luminance < 200)
extend the current run; a bright pixel closes it, emitting it only when
`lineLength > width * 0.1` (`10 * len > width` exactly). -/
def designRowStep (img : ImageData) (y : ℕ) (st : RunState) (x : ℕ) : RunState :=
  if grayscale1000 (img.pixel x y) < 200000 then
    { lines := st.lines
      lineStart := if st.lineStart = -1 then (x : ℤ) else st.lineStart
      lineLength := st.lineLength + 1 }
  else
    if img.width < 10 * st.lineLength then
      { lines := st.lines ++ [⟨st.lineStart, y, st.lineLength, 1⟩]
        lineStart := -1
        lineLength := 0 }
    else
      { lines := st.lines, lineStart := -1, lineLength := 0 }

/-- Scan one row; the run state is fresh per row, the emitted lines
accumulate across rows.  A run still open when the row ends is discarded
(the source has no flush after the `x` loop). -/
def scanDesignRow (img : ImageData) (lines : List HLine) (y : ℕ) : List HLine :=
  ((List.range img.width).foldl (designRowStep img y) ⟨lines, -1, 0⟩).lines

/-- The rows visited by `for (y = 0; y < height; y += 5)`. -/
def designRows (img : ImageData) : List ℕ :=
  (List.range img.height).filter (fun y => y % 5 == 0)

/-- The design-elements record produced by a run; vertical lines and shapes
are declared but always left empty by the source. -/
structure DesignElements where
  horizontalLines : List HLine
  verticalLines : List HLine
  shapes : List HLine
deriving DecidableEq, Repr

/-- Source `detectDesignElements`. -/
def detectDesignElements (img : ImageData) : DesignElements :=
  ⟨(designRows img).foldl (scanDesignRow img) [], [], []⟩

/-! ## Analyzer state (`analysisResults`, `analyzeImage`, `analyzePDF`,
`analyzeTextContent`, `reset`, `analyzeTemplate`) -/

/-- The `dimensions` entry.  The source renders `aspectRatio` as the string
`(width/height).toFixed(2)`; we keep the exact ratio, which determines that
string. -/
structure Dimensions where
  width : ℕ
  height : ℕ
  aspectRatio : ℚ
deriving DecidableEq, Repr

/-- The `designElements` slot of `analysisResults`: the constructor literal
`{icons: [], dividers: [], borders: []}` before any run, replaced wholesale
by the detector's record during a run. -/
inductive DesignElementsSlot where
  | placeholderShape
  | analyzed (elems : DesignElements)
deriving DecidableEq, Repr

/-- The mutable `this.analysisResults` object (the `layout` sub-object is
flattened into fields; `grid` and `margins` do not exist before the first
run, hence `Option`). -/
structure AnalysisResults where
  dimensions : Option Dimensions
  colorPalette : List ColorSwatch
  fonts : List String
  sections : List Section
  textBlocks : List TextBlock
  imageAreas : List Unit
  grid : Option GridInfo
  margins : Option Margins
  designElements : DesignElementsSlot
deriving DecidableEq, Repr

/-- The constructor's initial `analysisResults` (also what `reset()`
restores). -/
def initialResults : AnalysisResults :=
  ⟨none, [], [], [], [], [], none, none, .placeholderShape⟩

/-- Source `reset()`. -/
def resetPure : AnalysisResults := initialResults

/-- The pixel-analysis phase shared by `analyzeImage` and `analyzePDF`:
field-by-field mutation of `this.analysisResults`.  `fonts` and
`imageAreas` are NOT written by this phase and keep their previous
values. -/
def analyzeImagePure (st : AnalysisResults) (img : ImageData) : AnalysisResults :=
  let textBlocks := detectTextRegions img
  { st with
    dimensions := some ⟨img.width, img.height, (img.width : ℚ) / (img.height : ℚ)⟩
    colorPalette := extractColorPalette img
    textBlocks := textBlocks
    sections := detectSections img
    grid := some (detectGridStructure textBlocks)
    margins := some (detectMargins img)
    designElements := .analyzed (detectDesignElements img) }

/-- Source `analyzeTextContent`: the set of `fontName`s of the text items
(JS `if (item.fontName)` skips falsy names, i.e. the empty string), in
first-seen order (`Array.from(Set)`). -/
def analyzeTextContentFonts (items : List String) : List String :=
  dedupKeepFirst (items.filter (fun s => s ≠ ""))

/-- Source `analyzePDF` after rendering page 1: same pixel analyses, then
`analyzeTextContent` overwrites `fonts`. -/
def analyzePDFPure (st : AnalysisResults) (img : ImageData) (items : List String) :
    AnalysisResults :=
  { analyzeImagePure st img with fonts := analyzeTextContentFonts items }

/-- JS `String.prototype.startsWith` (prefix on the character sequence). -/
def strStartsWith (s p : String) : Bool := p.data.isPrefixOf s.data

/-- Source `analyzeTemplate`: dispatch on the declared MIME type.  Images
and PDFs are modelled by their decoded buffer (and, for PDFs, the font
names of the text layer); the unsupported branch throws
`'Unsupported file type'` before any pixel work, modelled by `Except`. -/
def analyzeTemplate (mime : String) (st : AnalysisResults) (img : ImageData)
    (items : List String) : Except String AnalysisResults :=
  if strStartsWith mime "image/" then .ok (analyzeImagePure st img)
  else if mime = "application/pdf" then .ok (analyzePDFPure st img items)
  else .error "Unsupported file type"

/-- The four MIME types accepted by the caller's `isValidTemplateFile`
(the "supported set" of the spec). -/
def supportedMimeTypes : List String :=
  ["image/jpeg", "image/jpg", "image/png", "application/pdf"]

/-! ## Concrete fixture buffers used by witnesses and counterexamples -/

/-- 10×10 buffer of pure opaque red. -/
def redImg : ImageData := ⟨10, 10, fun _ _ => ⟨255, 0, 0, 255⟩⟩

/-- 20×1 opaque buffer: one red pixel at x = 0, blue elsewhere; the two
sampled pixels (x = 0 and x = 10) land in different buckets with equal
frequency 1. -/
def twoColorImg : ImageData :=
  ⟨20, 1, fun x _ => if x = 0 then ⟨255, 0, 0, 255⟩ else ⟨0, 0, 255, 255⟩⟩

/-- 30×30 uniform flat mid-gray buffer. -/
def flatImg : ImageData := ⟨30, 30, fun _ _ => ⟨77, 77, 77, 255⟩⟩

/-- 21×21 black/white 1-pixel checkerboard: maximal edge density. -/
def checkerImg : ImageData :=
  ⟨21, 21, fun x y => if (x + y) % 2 == 0 then ⟨0, 0, 0, 255⟩ else ⟨255, 255, 255, 255⟩⟩

/-- 15×100 checkerboard: busy content, but too narrow for any 20×20 cell. -/
def narrowImg : ImageData :=
  ⟨15, 100, fun x y => if (x + y) % 2 == 0 then ⟨0, 0, 0, 255⟩ else ⟨255, 255, 255, 255⟩⟩

/-- 20×1 all-black buffer: a single dark run spanning the entire row. -/
def darkRowImg : ImageData := ⟨20, 1, fun _ _ => ⟨0, 0, 0, 255⟩⟩

/-- 20×1 buffer whose row is dark exactly on `[2, 15)` (run of length 13,
terminated by a bright pixel at x = 15). -/
def interiorRunImg : ImageData :=
  ⟨20, 1, fun x _ => if 2 ≤ x ∧ x < 15 then ⟨0, 0, 0, 255⟩ else ⟨255, 255, 255, 255⟩⟩

/-- 10×10 all-white buffer. -/
def whiteImg : ImageData := ⟨10, 10, fun _ _ => ⟨255, 255, 255, 255⟩⟩

/-- 1×1 white buffer (minimal run input for the state-carryover fixtures). -/
def onePixImg : ImageData := ⟨1, 1, fun _ _ => ⟨255, 255, 255, 255⟩⟩

/-- 10×20 buffer whose rows 5–14 are black and the rest white: one content
band of height 10 (= 50% of the image height) surrounded by white. -/
def bandImg : ImageData :=
  ⟨10, 20, fun _ y => if 5 ≤ y ∧ y < 15 then ⟨0, 0, 0, 255⟩ else ⟨255, 255, 255, 255⟩⟩

/-- A merged block at the origin (fixture for the grid claims). -/
def gridBlockA : TextBlock := ⟨0, 0, 20, 20, 1⟩

/-- A second merged block at (100, 50) (fixture for the grid claims). -/
def gridBlockB : TextBlock := ⟨100, 50, 20, 20, 1⟩

/-! ## Spec-side grid quantities (for the C4 refinement statement)

These follow the claim's words, independently of the code's sorting and
deduplication machinery. -/

/-- The set of "distinct block left-edges rounded to the nearest 10px". -/
def specRoundedLefts (blocks : List TextBlock) : Finset ℕ :=
  (blocks.map (fun b => round10 b.x)).toFinset

/-- The distinct rounded left edges in ascending order. -/
def specSortedLefts (blocks : List TextBlock) : List ℕ :=
  (specRoundedLefts blocks).sort (· ≤ ·)

/-- The "gap between the two smallest distinct rounded left-edges", 0 when
only one distinct left edge exists. -/
def specLeftEdgeGap (blocks : List TextBlock) : ℕ :=
  if 1 < (specSortedLefts blocks).length then
    (specSortedLefts blocks).getD 1 0 - (specSortedLefts blocks).getD 0 0
  else 0

/-! # Theorems

## Palette lemmas (shared by the C2 and C3 developments) -/

theorem mapInc_ne_nil (m : List ((ℕ × ℕ × ℕ) × ℕ)) (k : ℕ × ℕ × ℕ) :
    mapInc m k ≠ [] := by
  unfold mapInc
  split
  next h =>
    cases m with
    | nil => simp at h
    | cons a l => simp
  next h => simp

theorem paletteStep_ne_nil (img : ImageData) (m : List ((ℕ × ℕ × ℕ) × ℕ))
    (p : ℕ) (hm : m ≠ []) : paletteStep img m p ≠ [] := by
  unfold paletteStep
  dsimp only
  split
  · exact hm
  · exact mapInc_ne_nil _ _

theorem foldlPalette_ne_nil (img : ImageData) (l : List ℕ)
    (m : List ((ℕ × ℕ × ℕ) × ℕ)) (hm : m ≠ []) :
    l.foldl (paletteStep img) m ≠ [] := by
  induction l generalizing m with
  | nil => exact hm
  | cons p l ih =>
    simp only [List.foldl_cons]
    exact ih _ (paletteStep_ne_nil img m p hm)

theorem sampleIndices_eq_cons (img : ImageData) (h : 0 < img.width * img.height) :
    ∃ rest, sampleIndices img = 0 :: rest := by
  unfold sampleIndices
  obtain ⟨n, hn⟩ := Nat.exists_eq_add_of_lt h
  rw [hn, Nat.zero_add, List.range_succ_eq_map, List.filter_cons]
  simp

theorem width_pos_of_area_pos (img : ImageData) (h : 0 < img.width * img.height) :
    0 < img.width := by
  rcases Nat.eq_zero_or_pos img.width with h0 | h0
  · rw [h0] at h; simp at h
  · exact h0

theorem height_pos_of_area_pos (img : ImageData) (h : 0 < img.width * img.height) :
    0 < img.height := by
  rcases Nat.eq_zero_or_pos img.height with h0 | h0
  · rw [h0] at h; simp at h
  · exact h0

theorem dataAt_of_lt (img : ImageData) (p : ℕ) (hp : p < img.width * img.height)
    {c : RGBA} (hall : ∀ x < img.width, ∀ y < img.height, img.pixel x y = c) :
    dataAt img p = c := by
  have hw : 0 < img.width := width_pos_of_area_pos img (Nat.pos_of_ne_zero (by omega))
  refine hall _ (Nat.mod_lt _ hw) _ ?_
  rw [Nat.div_lt_iff_lt_mul hw, Nat.mul_comm]
  exact hp

theorem colorMap_ne_nil (img : ImageData) (h0 : 0 < img.width * img.height)
    (ha : ∀ x < img.width, ∀ y < img.height, 128 ≤ (img.pixel x y).a) :
    colorMap img ≠ [] := by
  obtain ⟨rest, hr⟩ := sampleIndices_eq_cons img h0
  unfold colorMap
  rw [hr]
  simp only [List.foldl_cons]
  apply foldlPalette_ne_nil
  have hge : 128 ≤ (dataAt img 0).a := by
    have hw : 0 < img.width := width_pos_of_area_pos img h0
    have hh : 0 < img.height := height_pos_of_area_pos img h0
    unfold dataAt
    exact ha _ (by simpa using hw) _ (by simpa using hh)
  unfold paletteStep
  dsimp only
  rw [if_neg (by omega)]
  exact mapInc_ne_nil _ _

theorem mem_insertByCount {z x : (ℕ × ℕ × ℕ) × ℕ} {l : List ((ℕ × ℕ × ℕ) × ℕ)} :
    z ∈ insertByCount x l ↔ z = x ∨ z ∈ l := by
  induction l with
  | nil => simp [insertByCount]
  | cons y ys ih =>
    unfold insertByCount
    split
    · simp
    · simp only [List.mem_cons, ih]
      tauto

theorem insertByCount_pairwise {x : (ℕ × ℕ × ℕ) × ℕ} {l : List ((ℕ × ℕ × ℕ) × ℕ)}
    (hl : l.Pairwise (fun a b => b.2 ≤ a.2)) :
    (insertByCount x l).Pairwise (fun a b => b.2 ≤ a.2) := by
  induction l with
  | nil => simp [insertByCount]
  | cons y ys ih =>
    rcases List.pairwise_cons.mp hl with ⟨hy, hys⟩
    unfold insertByCount
    split
    next hle =>
      refine List.pairwise_cons.mpr ⟨?_, hl⟩
      intro z hz
      rcases List.mem_cons.mp hz with rfl | hz
      · exact hle
      · exact le_trans (hy z hz) hle
    next hgt =>
      refine List.pairwise_cons.mpr ⟨?_, ih hys⟩
      intro z hz
      rcases mem_insertByCount.mp hz with rfl | hz
      · omega
      · exact hy z hz

theorem sortByCountDesc_pairwise (l : List ((ℕ × ℕ × ℕ) × ℕ)) :
    (sortByCountDesc l).Pairwise (fun a b => b.2 ≤ a.2) := by
  induction l with
  | nil => simp [sortByCountDesc]
  | cons x xs ih => exact insertByCount_pairwise ih

theorem insertByCount_length (x : (ℕ × ℕ × ℕ) × ℕ) (l : List ((ℕ × ℕ × ℕ) × ℕ)) :
    (insertByCount x l).length = l.length + 1 := by
  induction l with
  | nil => simp [insertByCount]
  | cons y ys ih =>
    unfold insertByCount
    split
    · simp
    · simp [ih]

theorem sortByCountDesc_length (l : List ((ℕ × ℕ × ℕ) × ℕ)) :
    (sortByCountDesc l).length = l.length := by
  induction l with
  | nil => rfl
  | cons x xs ih => simp [sortByCountDesc, insertByCount_length, ih]

/-! ## Claim C2 -/

/-- C2 (counterexample): the palette is NOT always strictly sorted by
descending frequency.  In `twoColorImg` every pixel is fully opaque, yet
the two palette entries tie at frequency 1, so strict descent fails. -/
theorem C2_counterexample :
    (∀ x < 20, ∀ y < 1, 128 ≤ ((twoColorImg.pixel x y).a)) ∧
      ¬ (extractColorPalette twoColorImg).Pairwise
        (fun s t => t.frequency < s.frequency) := by
  constructor
  · decide
  · decide

/-- C2 (amended): for every non-degenerate `PixelBuffer` in which every
pixel has alpha ≥ 128, `extractColorPalette` returns a non-empty palette of
at most 8 swatches sorted by non-increasing frequency (strict descent fails
on ties, see the counterexample). -/
theorem C2_palette_sorted (img : ImageData) (h0 : 0 < img.width * img.height)
    (ha : ∀ x < img.width, ∀ y < img.height, 128 ≤ (img.pixel x y).a) :
    extractColorPalette img ≠ [] ∧ (extractColorPalette img).length ≤ 8 ∧
      (extractColorPalette img).Pairwise (fun s t => t.frequency ≤ s.frequency) := by
  refine ⟨?_, ?_, ?_⟩
  · have h := colorMap_ne_nil img h0 ha
    unfold extractColorPalette
    intro hc
    rw [List.map_eq_nil_iff, List.take_eq_nil_iff] at hc
    rcases hc with hc | hc
    · exact absurd hc (by omega)
    · have hlen := sortByCountDesc_length (colorMap img)
      rw [hc] at hlen
      exact h (List.eq_nil_of_length_eq_zero hlen.symm)
  · unfold extractColorPalette
    rw [List.length_map, List.length_take]
    omega
  · unfold extractColorPalette
    refine List.pairwise_map.mpr ?_
    exact List.Pairwise.sublist (List.take_sublist 8 _) (sortByCountDesc_pairwise _)

/-- C2 (witness): the amended theorem applied to the all-red 10×10 buffer. -/
theorem C2_witness :
    (0 < redImg.width * redImg.height ∧
      ∀ x < redImg.width, ∀ y < redImg.height, 128 ≤ (redImg.pixel x y).a) ∧
      extractColorPalette redImg ≠ [] ∧ (extractColorPalette redImg).length ≤ 8 ∧
      (extractColorPalette redImg).Pairwise (fun s t => t.frequency ≤ s.frequency) :=
  ⟨⟨by decide, by decide⟩, C2_palette_sorted redImg (by decide) (by decide)⟩

/-! ## Claim C3 -/

theorem mapInc_singleton_same (k : ℕ × ℕ × ℕ) (n : ℕ) :
    mapInc [(k, n)] k = [(k, n + 1)] := by
  simp [mapInc]

theorem paletteStep_of_eq (img : ImageData) (m : List ((ℕ × ℕ × ℕ) × ℕ))
    (p : ℕ) {c : RGBA} (hp : dataAt img p = c) (hc : ¬ c.a < 128) :
    paletteStep img m p = mapInc m (colorKey c) := by
  unfold paletteStep
  dsimp only
  rw [hp, if_neg hc]

theorem foldlPalette_const (img : ImageData) (c : RGBA) (hc : ¬ c.a < 128)
    (l : List ℕ) (n : ℕ) (hl : ∀ p ∈ l, dataAt img p = c) :
    l.foldl (paletteStep img) [(colorKey c, n)] = [(colorKey c, n + l.length)] := by
  induction l generalizing n with
  | nil => simp
  | cons p l ih =>
    simp only [List.foldl_cons]
    rw [paletteStep_of_eq img _ p (hl p (by simp)) hc, mapInc_singleton_same]
    rw [ih (n + 1) (fun q hq => hl q (by simp [hq]))]
    simp only [List.length_cons]
    have h2 : n + 1 + l.length = n + (l.length + 1) := by omega
    rw [h2]

theorem colorMap_const (img : ImageData) (c : RGBA) (h0 : 0 < img.width * img.height)
    (hc : ¬ c.a < 128) (hall : ∀ x < img.width, ∀ y < img.height, img.pixel x y = c) :
    colorMap img = [(colorKey c, (sampleIndices img).length)] := by
  have hmem : ∀ p ∈ sampleIndices img, dataAt img p = c := by
    intro p hp
    have : p < img.width * img.height := by
      have := List.mem_filter.mp hp
      exact List.mem_range.mp this.1
    exact dataAt_of_lt img p this hall
  obtain ⟨rest, hr⟩ := sampleIndices_eq_cons img h0
  unfold colorMap
  rw [hr]
  simp only [List.foldl_cons]
  have h0mem : dataAt img 0 = c := hmem 0 (by rw [hr]; simp)
  rw [paletteStep_of_eq img [] 0 h0mem hc]
  rw [show mapInc [] (colorKey c) = [(colorKey c, 1)] from rfl]
  rw [foldlPalette_const img c hc rest 1 (fun q hq => hmem q (by rw [hr]; simp [hq]))]
  simp only [List.length_cons]
  have h2 : 1 + rest.length = rest.length + 1 := by omega
  rw [h2]

/-- C3 (counterexample): on the all-red buffer the top swatch's hex string
is `#f00000` (the bucket floor 240 encoded), not `#ff0000` as claimed. -/
theorem C3_counterexample :
    (extractColorPalette redImg).map ColorSwatch.hex = ["#f00000"] ∧
      "#f00000" ≠ "#ff0000" := by
  constructor
  · decide
  · decide

/-- C3 (amended): for every non-degenerate buffer containing only pure red
(255,0,0) fully opaque pixels, the unique swatch's hex is `#f00000` and its
reconstructed RGB string is `rgb(240, 0, 0)` — i.e. both decode the
quantization bucket floors (240,0,0), so the quantize-then-reconstruct path
is self-consistent. -/
theorem C3_red_swatch (img : ImageData) (h0 : 0 < img.width * img.height)
    (hall : ∀ x < img.width, ∀ y < img.height, img.pixel x y = ⟨255, 0, 0, 255⟩) :
    (extractColorPalette img).map (fun s => (s.hex, s.rgb)) =
      [("#f00000", "rgb(240, 0, 0)")] := by
  unfold extractColorPalette
  rw [colorMap_const img ⟨255, 0, 0, 255⟩ h0 (by decide) hall]
  rw [show colorKey ⟨255, 0, 0, 255⟩ = (240, 0, 0) from rfl]
  rw [show ∀ n, sortByCountDesc [((240, 0, 0), n)] = [((240, 0, 0), n)] from fun n => rfl]
  rw [List.take_of_length_le (by simp)]
  simp only [List.map_map, List.map_cons, List.map_nil, Function.comp, mkSwatch]
  decide

/-- C3 (witness): the amended theorem applied to the all-red 10×10 buffer. -/
theorem C3_witness :
    (0 < redImg.width * redImg.height ∧
      ∀ x < redImg.width, ∀ y < redImg.height, redImg.pixel x y = ⟨255, 0, 0, 255⟩) ∧
      (extractColorPalette redImg).map (fun s => (s.hex, s.rgb)) =
        [("#f00000", "rgb(240, 0, 0)")] :=
  ⟨⟨by decide, by decide⟩, C3_red_swatch redImg (by decide) (by decide)⟩

/-! ## Text-score lemmas (shared by the C5, C9 and C10 developments) -/

theorem scoreCellStep_const (img : ImageData) {c : RGBA}
    (hall : ∀ x < img.width, ∀ y < img.height, img.pixel x y = c)
    (x y dy : ℕ) (acc : ℕ × ℕ × ℕ) (dx : ℕ) :
    (scoreCellStep img x y dy acc dx).1 = acc.1 ∧
      (scoreCellStep img x y dy acc dx).2.2 = acc.2.2 := by
  unfold scoreCellStep
  dsimp only
  split
  · exact ⟨rfl, rfl⟩
  next h =>
    push_neg at h
    have g1 : gray1000At img ((y + dy) * img.width + (x + dx)) = grayscale1000 c := by
      unfold gray1000At
      rw [dataAt_of_lt img _ h.1 hall]
    have g2 : gray1000At img ((y + dy) * img.width + (x + dx + 1)) = grayscale1000 c := by
      unfold gray1000At
      rw [dataAt_of_lt img _ h.2.1 hall]
    have g3 : gray1000At img ((y + dy + 1) * img.width + (x + dx)) = grayscale1000 c := by
      unfold gray1000At
      rw [dataAt_of_lt img _ h.2.2 hall]
    rw [g1, g2, g3]
    simp [Nat.dist_self]

theorem foldl_preserve_13 {f : ℕ × ℕ × ℕ → ℕ → ℕ × ℕ × ℕ}
    (hf : ∀ acc i, (f acc i).1 = acc.1 ∧ (f acc i).2.2 = acc.2.2) :
    ∀ (l : List ℕ) (acc : ℕ × ℕ × ℕ),
      (l.foldl f acc).1 = acc.1 ∧ (l.foldl f acc).2.2 = acc.2.2 := by
  intro l
  induction l with
  | nil => intro acc; exact ⟨rfl, rfl⟩
  | cons i l ih =>
    intro acc
    simp only [List.foldl_cons]
    obtain ⟨h1, h2⟩ := ih (f acc i)
    obtain ⟨g1, g2⟩ := hf acc i
    exact ⟨h1.trans g1, h2.trans g2⟩

theorem scoreStats_const (img : ImageData) {c : RGBA}
    (hall : ∀ x < img.width, ∀ y < img.height, img.pixel x y = c) (x y : ℕ) :
    (scoreStats img x y).1 = 0 ∧ (scoreStats img x y).2.2 = 0 := by
  unfold scoreStats
  exact foldl_preserve_13
    (fun acc dy => foldl_preserve_13 (scoreCellStep_const img hall x y dy) _ acc) _ _

theorem score_eq_zero_of_stats (img : ImageData) (x y : ℕ)
    (h1 : (scoreStats img x y).1 = 0) (h3 : (scoreStats img x y).2.2 = 0) :
    calculateTextScore img x y = 0 := by
  simp only [calculateTextScore]
  rw [h1, h3]
  norm_num

theorem rawTextRegions_eq_nil_of_scores (img : ImageData)
    (h : ∀ p ∈ candidateCells img, calculateTextScore img p.1 p.2 = 0) :
    rawTextRegions img = [] := by
  unfold rawTextRegions
  rw [List.filterMap_eq_nil_iff]
  intro a ha
  dsimp only
  rw [h a ha, if_neg (by norm_num)]

/-! ## Claim C5 -/

/-- C5: for every uniformly flat `PixelBuffer` (all pixels one solid color,
any dimensions) `detectTextRegions` returns zero merged text blocks, and
every candidate cell's text score is exactly 0. -/
theorem C5_flat_no_text (img : ImageData) (c : RGBA)
    (hall : ∀ x < img.width, ∀ y < img.height, img.pixel x y = c) :
    detectTextRegions img = [] ∧
      ∀ p ∈ candidateCells img, calculateTextScore img p.1 p.2 = 0 := by
  have hsc : ∀ p : ℕ × ℕ, calculateTextScore img p.1 p.2 = 0 := by
    intro p
    obtain ⟨h1, h3⟩ := scoreStats_const img hall p.1 p.2
    exact score_eq_zero_of_stats img p.1 p.2 h1 h3
  constructor
  · unfold detectTextRegions
    rw [rawTextRegions_eq_nil_of_scores img (fun p _ => hsc p)]
    rfl
  · exact fun p _ => hsc p

/-- C5 (witness): the theorem applied to the uniform 30×30 mid-gray buffer,
which has exactly one candidate cell, at the origin. -/
theorem C5_witness :
    (∀ x < flatImg.width, ∀ y < flatImg.height, flatImg.pixel x y = ⟨77, 77, 77, 255⟩) ∧
      detectTextRegions flatImg = [] ∧
      ((0, 0) ∈ candidateCells flatImg ∧ calculateTextScore flatImg 0 0 = 0) :=
  ⟨by decide,
    (C5_flat_no_text flatImg ⟨77, 77, 77, 255⟩ (by decide)).1,
    by decide,
    (C5_flat_no_text flatImg ⟨77, 77, 77, 255⟩ (by decide)).2 (0, 0) (by decide)⟩

/-! ## Claim C9 -/

theorem score_nonneg (img : ImageData) (x y : ℕ) : 0 ≤ calculateTextScore img x y := by
  simp only [calculateTextScore]
  apply mul_nonneg
  · exact le_min (by positivity) (by norm_num)
  · exact le_min (by positivity) (by norm_num)

theorem score_le_one (img : ImageData) (x y : ℕ) : calculateTextScore img x y ≤ 1 := by
  simp only [calculateTextScore]
  exact mul_le_one₀ (min_le_right _ _) (le_min (by positivity) (by norm_num))
    (min_le_right _ _)

theorem rawTextRegions_conf (img : ImageData) :
    ∀ b ∈ rawTextRegions img, (3 / 10 : ℚ) < b.confidence ∧ b.confidence ≤ 1 := by
  intro b hb
  unfold rawTextRegions at hb
  rw [List.mem_filterMap] at hb
  obtain ⟨a, ha, hfa⟩ := hb
  dsimp only at hfa
  by_cases hc : (3 / 10 : ℚ) < calculateTextScore img a.1 a.2
  · rw [if_pos hc] at hfa
    cases hfa
    exact ⟨hc, score_le_one img a.1 a.2⟩
  · rw [if_neg hc] at hfa
    cases hfa

theorem foldl_max_conf_bounds (rest : List TextBlock) :
    ∀ q : ℚ, (3 / 10 < q ∧ q ≤ 1) →
      (∀ b ∈ rest, (3 / 10 : ℚ) < b.confidence ∧ b.confidence ≤ 1) →
      3 / 10 < rest.foldl (fun m b => max m b.confidence) q ∧
        rest.foldl (fun m b => max m b.confidence) q ≤ 1 := by
  induction rest with
  | nil => intro q hq _; exact hq
  | cons b rest ih =>
    intro q hq hrest
    simp only [List.foldl_cons]
    apply ih
    · obtain ⟨_, hb2⟩ := hrest b (by simp)
      exact ⟨lt_max_of_lt_left hq.1, max_le hq.2 hb2⟩
    · intro b' hb'
      exact hrest b' (by simp [hb'])

theorem calculateBoundingBox_conf (rs : List TextBlock) (hne : rs ≠ [])
    (h : ∀ b ∈ rs, (3 / 10 : ℚ) < b.confidence ∧ b.confidence ≤ 1) :
    (3 / 10 : ℚ) < (calculateBoundingBox rs).confidence ∧
      (calculateBoundingBox rs).confidence ≤ 1 := by
  cases rs with
  | nil => exact absurd rfl hne
  | cons r rest =>
    unfold calculateBoundingBox
    dsimp only
    exact foldl_max_conf_bounds rest r.confidence (h r (by simp))
      (fun b hb => h b (by simp [hb]))

theorem getD_mem_of_lt (l : List TextBlock) (i : ℕ) (h : i < l.length) :
    l.getD i defaultBlock ∈ l := by
  induction l generalizing i with
  | nil => simp at h
  | cons a l ih =>
    cases i with
    | zero => simp [List.getD]
    | succ j =>
      rw [List.getD_cons_succ]
      exact List.mem_cons_of_mem _ (ih j (by simpa using h))

theorem mergeStep_conf (regions : List TextBlock)
    (hreg : ∀ b ∈ regions, (3 / 10 : ℚ) < b.confidence ∧ b.confidence ≤ 1)
    (st : List ℕ × List TextBlock)
    (hst : ∀ b ∈ st.2, (3 / 10 : ℚ) < b.confidence ∧ b.confidence ≤ 1)
    (i : ℕ) (hi : i < regions.length) :
    ∀ b ∈ (mergeStep regions st i).2, (3 / 10 : ℚ) < b.confidence ∧ b.confidence ≤ 1 := by
  unfold mergeStep
  split
  · exact hst
  · dsimp only
    intro b hb
    rw [List.mem_append] at hb
    rcases hb with hb | hb
    · exact hst b hb
    · rw [List.mem_singleton] at hb
      subst hb
      apply calculateBoundingBox_conf
      · simp
      · intro b' hb'
        rcases List.mem_cons.mp hb' with rfl | hb'
        · exact hreg _ (getD_mem_of_lt regions i hi)
        · rw [List.mem_map] at hb'
          obtain ⟨j, hj, rfl⟩ := hb'
          have hjlt : j < regions.length :=
            List.mem_range.mp (List.mem_filter.mp hj).1
          exact hreg _ (getD_mem_of_lt regions j hjlt)

theorem mergeFold_conf (regions : List TextBlock)
    (hreg : ∀ b ∈ regions, (3 / 10 : ℚ) < b.confidence ∧ b.confidence ≤ 1) :
    ∀ l : List ℕ, (∀ i ∈ l, i < regions.length) →
      ∀ st : List ℕ × List TextBlock,
        (∀ b ∈ st.2, (3 / 10 : ℚ) < b.confidence ∧ b.confidence ≤ 1) →
        ∀ b ∈ (l.foldl (mergeStep regions) st).2,
          (3 / 10 : ℚ) < b.confidence ∧ b.confidence ≤ 1 := by
  intro l
  induction l with
  | nil => intro _ st hst; exact hst
  | cons i l ih =>
    intro hl st hst
    simp only [List.foldl_cons]
    exact ih (fun j hj => hl j (by simp [hj])) _
      (mergeStep_conf regions hreg st hst i (hl i (by simp)))

/-- C9: text scores of in-bounds 20×20 cells are well defined in [0,1], and
every merged text block's confidence lies strictly above the 0.3 retention
threshold and at most at 1. -/
theorem C9_confidence_bounds (img : ImageData) :
    (∀ x y : ℕ, x + 20 ≤ img.width → y + 20 ≤ img.height →
      0 ≤ calculateTextScore img x y ∧ calculateTextScore img x y ≤ 1) ∧
      ∀ blk ∈ detectTextRegions img, (3 / 10 : ℚ) < blk.confidence ∧ blk.confidence ≤ 1 := by
  constructor
  · intro x y _ _
    exact ⟨score_nonneg img x y, score_le_one img x y⟩
  · intro blk hblk
    unfold detectTextRegions mergeTextRegions at hblk
    exact mergeFold_conf (rawTextRegions img) (rawTextRegions_conf img) _
      (fun i hi => List.mem_range.mp hi) ([], []) (by simp) blk hblk

set_option maxRecDepth 100000 in
theorem scoreStats_checker : scoreStats checkerImg 0 0 = (361, 361, 92055000) := by
  decide

theorem score_checker : calculateTextScore checkerImg 0 0 = 1 := by
  simp only [calculateTextScore, scoreStats_checker]
  norm_num

theorem candidateCells_checker : candidateCells checkerImg = [(0, 0)] := by decide

theorem raw_checker : rawTextRegions checkerImg = [⟨0, 0, 20, 20, 1⟩] := by
  unfold rawTextRegions
  rw [candidateCells_checker]
  simp only [List.filterMap_cons, List.filterMap_nil]
  rw [score_checker, if_pos (show (3 / 10 : ℚ) < 1 by norm_num)]

theorem merge_single (b : TextBlock) : mergeTextRegions [b] = [calculateBoundingBox [b]] := by
  show (List.foldl (mergeStep [b]) ([], []) (List.range 1)).2 = _
  rw [show List.range 1 = [0] from rfl]
  simp only [List.foldl_cons, List.foldl_nil]
  unfold mergeStep
  simp [show List.range 1 = [0] from rfl, List.filter_cons]

theorem bbox_single : calculateBoundingBox [⟨0, 0, 20, 20, (1 : ℚ)⟩] = ⟨0, 0, 20, 20, 1⟩ := by
  unfold calculateBoundingBox
  simp

theorem detectTextRegions_checker : detectTextRegions checkerImg = [⟨0, 0, 20, 20, 1⟩] := by
  unfold detectTextRegions
  rw [raw_checker, merge_single, bbox_single]

/-- C9 (witness): the theorem applied to the 21×21 checkerboard, whose
single candidate cell scores exactly 1 and survives as one merged block. -/
theorem C9_witness :
    ((0 : ℚ) ≤ calculateTextScore checkerImg 0 0 ∧ calculateTextScore checkerImg 0 0 ≤ 1) ∧
      ((3 / 10 : ℚ) < (⟨0, 0, 20, 20, (1 : ℚ)⟩ : TextBlock).confidence ∧
        (⟨0, 0, 20, 20, (1 : ℚ)⟩ : TextBlock).confidence ≤ 1) :=
  ⟨(C9_confidence_bounds checkerImg).1 0 0 (by decide) (by decide),
    (C9_confidence_bounds checkerImg).2 ⟨0, 0, 20, 20, 1⟩
      (by rw [detectTextRegions_checker]; exact List.mem_singleton_self _)⟩

/-! ## Claim C10 -/

theorem grid20_eq_nil (n : ℕ) (h : n ≤ 20) : grid20 n = [] := by
  unfold grid20
  rw [show n - 20 = 0 by omega]
  rfl

theorem candidateCells_eq_nil (img : ImageData) (h : img.width ≤ 20 ∨ img.height ≤ 20) :
    candidateCells img = [] := by
  unfold candidateCells
  rcases h with h | h
  · simp [grid20_eq_nil img.width h]
  · rw [grid20_eq_nil img.height h]
    rfl

/-- C10: a buffer with width ≤ 20 or height ≤ 20 yields no candidate cell
at all, hence no merged text block, regardless of content; moreover every
candidate row/column offset `v` satisfies `v + 20 < n` (strict), so a cell
flush with the bottom or right edge is never scored. -/
theorem C10_small_buffer_no_cells (img : ImageData) :
    ((img.width ≤ 20 ∨ img.height ≤ 20) → detectTextRegions img = []) ∧
      ∀ n y : ℕ, y ∈ grid20 n → y + 20 < n := by
  constructor
  · intro h
    unfold detectTextRegions
    have hr : rawTextRegions img = [] := by
      unfold rawTextRegions
      rw [candidateCells_eq_nil img h]
      rfl
    rw [hr]
    rfl
  · intro n y hy
    unfold grid20 at hy
    have h1 := List.mem_range.mp (List.mem_filter.mp hy).1
    omega

/-- C10 (witness): the theorem applied to the busy 15×100 checkerboard
(too narrow for any cell) and to the cell offset 20 of a height-50 scan. -/
theorem C10_witness :
    (narrowImg.width ≤ 20 ∨ narrowImg.height ≤ 20) ∧ detectTextRegions narrowImg = [] ∧
      20 ∈ grid20 50 ∧ 20 + 20 < 50 :=
  ⟨Or.inl (by decide), (C10_small_buffer_no_cells narrowImg).1 (Or.inl (by decide)),
    by decide, (C10_small_buffer_no_cells narrowImg).2 50 20 (by decide)⟩

/-! ## Sorting and deduplication lemmas (for the C4 development) -/

theorem insertAsc_perm (x : ℕ) (l : List ℕ) : List.Perm (insertAsc x l) (x :: l) := by
  induction l with
  | nil => rfl
  | cons y ys ih =>
    unfold insertAsc
    split
    · rfl
    · exact ((ih.cons y).trans (List.Perm.swap x y ys)).symm.symm

theorem sortAsc_perm (l : List ℕ) : List.Perm (sortAsc l) l := by
  induction l with
  | nil => rfl
  | cons x xs ih => exact (insertAsc_perm x (sortAsc xs)).trans (ih.cons x)

theorem mem_insertAsc {a x : ℕ} {l : List ℕ} : a ∈ insertAsc x l ↔ a = x ∨ a ∈ l := by
  rw [(insertAsc_perm x l).mem_iff]
  simp

theorem insertAsc_sorted {x : ℕ} {l : List ℕ} (hl : l.Sorted (· ≤ ·)) :
    (insertAsc x l).Sorted (· ≤ ·) := by
  induction l with
  | nil => simp [insertAsc]
  | cons y ys ih =>
    rcases List.pairwise_cons.mp hl with ⟨hy, hys⟩
    unfold insertAsc
    split
    next hle =>
      refine List.pairwise_cons.mpr ⟨?_, hl⟩
      intro z hz
      rcases List.mem_cons.mp hz with rfl | hz
      · exact hle
      · exact le_trans hle (hy z hz)
    next hgt =>
      refine List.pairwise_cons.mpr ⟨?_, ih hys⟩
      intro z hz
      rcases mem_insertAsc.mp hz with rfl | hz
      · omega
      · exact hy z hz

theorem sortAsc_sorted (l : List ℕ) : (sortAsc l).Sorted (· ≤ ·) := by
  induction l with
  | nil => simp [sortAsc]
  | cons x xs ih => exact insertAsc_sorted ih

theorem round10_mono {a b : ℕ} (h : a ≤ b) : round10 a ≤ round10 b := by
  unfold round10
  exact Nat.mul_le_mul_right _ (Nat.div_le_div_right (by omega))

theorem mem_dedupKFAux [DecidableEq α] {a : α} :
    ∀ (l seen : List α), a ∈ dedupKFAux seen l ↔ a ∈ l ∧ a ∉ seen := by
  intro l
  induction l with
  | nil => simp [dedupKFAux]
  | cons x xs ih =>
    intro seen
    unfold dedupKFAux
    split
    next hx =>
      rw [ih seen]
      simp only [List.mem_cons]
      constructor
      · rintro ⟨h1, h2⟩; exact ⟨Or.inr h1, h2⟩
      · rintro ⟨h1 | h1, h2⟩
        · subst h1; exact absurd hx h2
        · exact ⟨h1, h2⟩
    next hx =>
      simp only [List.mem_cons, ih (seen ++ [x]), List.mem_append, List.mem_singleton]
      constructor
      · rintro (rfl | ⟨h1, h2⟩)
        · exact ⟨Or.inl rfl, hx⟩
        · exact ⟨Or.inr h1, fun hs => h2 (Or.inl hs)⟩
      · rintro ⟨rfl | h1, h2⟩
        · exact Or.inl rfl
        · by_cases hax : a = x
          · exact Or.inl hax
          · exact Or.inr ⟨h1, by simp [h2, hax]⟩

theorem dedupKFAux_sublist [DecidableEq α] :
    ∀ (l seen : List α), (dedupKFAux seen l).Sublist l := by
  intro l
  induction l with
  | nil => intro seen; simp [dedupKFAux]
  | cons x xs ih =>
    intro seen
    unfold dedupKFAux
    split
    · exact (ih seen).cons x
    · exact (ih (seen ++ [x])).cons₂ x

theorem dedupKFAux_nodup [DecidableEq α] :
    ∀ (l seen : List α), (dedupKFAux seen l).Nodup := by
  intro l
  induction l with
  | nil => intro seen; simp [dedupKFAux]
  | cons x xs ih =>
    intro seen
    unfold dedupKFAux
    split
    · exact ih seen
    · refine List.nodup_cons.mpr ⟨?_, ih (seen ++ [x])⟩
      intro hx
      exact ((mem_dedupKFAux xs (seen ++ [x])).mp hx).2 (by simp)

theorem mem_dedupKeepFirst [DecidableEq α] {a : α} {l : List α} :
    a ∈ dedupKeepFirst l ↔ a ∈ l := by
  unfold dedupKeepFirst
  rw [mem_dedupKFAux]
  simp

theorem dedupKeepFirst_nodup [DecidableEq α] (l : List α) : (dedupKeepFirst l).Nodup :=
  dedupKFAux_nodup l []

theorem dedupKeepFirst_sorted {l : List ℕ} (hl : l.Sorted (· ≤ ·)) :
    (dedupKeepFirst l).Sorted (· ≤ ·) :=
  List.Pairwise.sublist (dedupKFAux_sublist l []) hl

/-! ## Claim C4 -/

theorem mapRound10_sortAsc_sorted (blocks : List TextBlock) :
    ((sortAsc (blocks.map TextBlock.x)).map round10).Sorted (· ≤ ·) := by
  refine List.pairwise_map.mpr ?_
  exact List.Pairwise.imp (fun h => round10_mono h) (sortAsc_sorted _)

theorem uniqueLefts_eq_sort (blocks : List TextBlock) :
    dedupKeepFirst ((sortAsc (blocks.map TextBlock.x)).map round10) =
      specSortedLefts blocks := by
  unfold specSortedLefts
  apply List.eq_of_perm_of_sorted (r := (· ≤ ·))
  · rw [List.perm_ext_iff_of_nodup (dedupKeepFirst_nodup _) (Finset.sort_nodup _ _)]
    intro a
    rw [mem_dedupKeepFirst, Finset.mem_sort, specRoundedLefts, List.mem_toFinset]
    have hperm : List.Perm ((sortAsc (blocks.map TextBlock.x)).map round10)
        ((blocks.map TextBlock.x).map round10) := (sortAsc_perm _).map _
    rw [hperm.mem_iff, List.map_map]
    simp [Function.comp]
  · exact dedupKeepFirst_sorted (mapRound10_sortAsc_sorted blocks)
  · exact Finset.sort_sorted _ _

/-- C4 (counterexample): with the two blocks at left edges 0 and 100 and
top edges 0 and 50 the average vertical gap is 50, but the code stores it
in `gutters.horizontal`, and `gutters.vertical` receives the left-edge gap
100 — the converse of the claim's field assignment. -/
theorem C4_counterexample :
    detectGridStructure [gridBlockA, gridBlockB] = ⟨2, 1, 50, 100⟩ ∧
      (detectGridStructure [gridBlockA, gridBlockB]).guttersVertical ≠ 50 := by
  have h : detectGridStructure [gridBlockA, gridBlockB] = ⟨2, 1, 50, 100⟩ := by
    unfold detectGridStructure
    rw [if_neg (by decide)]
    simp only [gridBlockA, gridBlockB, List.map_cons, List.map_nil]
    norm_num [sortAsc, insertAsc, round10, dedupKeepFirst, dedupKFAux]
  exact ⟨h, by rw [h]; decide⟩

/-- C4 (amended): when at least 2 merged text blocks exist, `columns` is the
number of distinct rounded left edges, the average of the vertical gaps
between consecutive blocks sorted ascending by top edge lands in the
HORIZONTAL gutter field, and the gap between the two smallest distinct
rounded left edges lands in the VERTICAL gutter field (swapped relative to
the claim). -/
theorem C4_grid_characterization (blocks : List TextBlock) (ts : List ℕ)
    (h2 : 2 ≤ blocks.length) (hperm : List.Perm ts (blocks.map TextBlock.y))
    (hsort : ts.Sorted (· ≤ ·)) :
    (detectGridStructure blocks).columns = (specRoundedLefts blocks).card ∧
      (detectGridStructure blocks).guttersHorizontal =
        (((List.zipWith (fun a b => a - b) ts.tail ts : List ℕ)).sum : ℚ) /
          (((List.zipWith (fun a b => a - b) ts.tail ts : List ℕ)).length : ℚ) ∧
      (detectGridStructure blocks).guttersVertical = specLeftEdgeGap blocks := by
  have hts : ts = sortAsc (blocks.map TextBlock.y) :=
    List.eq_of_perm_of_sorted (hperm.trans (sortAsc_perm _).symm) hsort (sortAsc_sorted _)
  subst hts
  have hlen : (sortAsc (blocks.map TextBlock.y)).length = blocks.length :=
    ((sortAsc_perm _).length_eq).trans (List.length_map _ _)
  have hgapslen :
      (List.zipWith (fun a b => a - b) (sortAsc (blocks.map TextBlock.y)).tail
        (sortAsc (blocks.map TextBlock.y))).length = blocks.length - 1 := by
    rw [List.length_zipWith, List.length_tail, hlen]
    omega
  unfold detectGridStructure
  rw [if_neg (by omega)]
  dsimp only
  rw [uniqueLefts_eq_sort]
  refine ⟨?_, ?_, ?_⟩
  · unfold specSortedLefts
    exact Finset.length_sort (r := (· ≤ ·))
  · rw [if_pos (by rw [hgapslen]; omega)]
  · rfl

/-- C4 (witness): the amended theorem applied to the two fixture blocks,
with `[0, 50]` as the ascending list of top edges. -/
theorem C4_witness :
    (2 ≤ ([gridBlockA, gridBlockB] : List TextBlock).length ∧
      List.Perm ([0, 50] : List ℕ) ([gridBlockA, gridBlockB].map TextBlock.y) ∧
      ([0, 50] : List ℕ).Sorted (· ≤ ·)) ∧
      (detectGridStructure [gridBlockA, gridBlockB]).columns =
          (specRoundedLefts [gridBlockA, gridBlockB]).card ∧
        (detectGridStructure [gridBlockA, gridBlockB]).guttersHorizontal =
          (((List.zipWith (fun a b => a - b) ([0, 50] : List ℕ).tail [0, 50] : List ℕ)).sum : ℚ) /
            (((List.zipWith (fun a b => a - b) ([0, 50] : List ℕ).tail [0, 50] : List ℕ)).length : ℚ) ∧
        (detectGridStructure [gridBlockA, gridBlockB]).guttersVertical =
          specLeftEdgeGap [gridBlockA, gridBlockB] :=
  ⟨⟨by decide, by decide, by decide⟩,
    C4_grid_characterization [gridBlockA, gridBlockB] [0, 50] (by decide) (by decide)
      (by decide)⟩

/-! ## Section-scan lemmas (for the C7 development) -/

theorem range'_split (s m n : ℕ) (h : m ≤ n) :
    List.range' s n = List.range' s m ++ List.range' (s + m) (n - m) := by
  have happ := List.range'_append s m (n - m) 1
  rw [Nat.one_mul] at happ
  rw [show n - m + m = n from by omega] at happ
  exact happ.symm

theorem sectionStep_no_content (img : ImageData) (st : SectionScanState) (y : ℕ)
    (h : rowHasContent img y = false) (hout : st.inSection = false) :
    sectionStep img st y = st := by
  unfold sectionStep
  rw [h]
  simp [hout]

theorem foldl_no_content (img : ImageData) (l : List ℕ) (st : SectionScanState)
    (hl : ∀ y ∈ l, rowHasContent img y = false) (hout : st.inSection = false) :
    l.foldl (sectionStep img) st = st := by
  induction l with
  | nil => rfl
  | cons y l ih =>
    simp only [List.foldl_cons]
    rw [sectionStep_no_content img st y (hl y (by simp)) hout]
    exact ih (fun z hz => hl z (by simp [hz]))

theorem sectionStep_content_open (img : ImageData) (st : SectionScanState) (y : ℕ)
    (h : rowHasContent img y = true) (hin : st.inSection = true) :
    sectionStep img st y = st := by
  unfold sectionStep
  rw [h]
  simp [hin]

theorem foldl_content_open (img : ImageData) (l : List ℕ) (st : SectionScanState)
    (hl : ∀ y ∈ l, rowHasContent img y = true) (hin : st.inSection = true) :
    l.foldl (sectionStep img) st = st := by
  induction l with
  | nil => rfl
  | cons y l ih =>
    simp only [List.foldl_cons]
    rw [sectionStep_content_open img st y (hl y (by simp)) hin]
    exact ih (fun z hz => hl z (by simp [hz]))

theorem sectionStep_content_start (img : ImageData) (st : SectionScanState) (y : ℕ)
    (h : rowHasContent img y = true) (hout : st.inSection = false) :
    sectionStep img st y = ⟨st.sections, y, true⟩ := by
  unfold sectionStep
  rw [h]
  simp [hout]

theorem sectionStep_close_emit (img : ImageData) (st : SectionScanState) (y : ℕ)
    (h : rowHasContent img y = false) (hin : st.inSection = true)
    (hbig : img.height < 20 * (y - st.sectionStart)) :
    sectionStep img st y =
      ⟨st.sections ++ [⟨"content", 0, st.sectionStart, img.width, y - st.sectionStart⟩],
        st.sectionStart, false⟩ := by
  unfold sectionStep
  rw [h]
  simp [hin, hbig]

/-! ## Claim C7 -/

theorem rowHasContent_false_of_blank (img : ImageData)
    (hall : ∀ x < img.width, ∀ y < img.height, 240000 ≤ grayscale1000 (img.pixel x y))
    (y : ℕ) (hy : y < img.height) : rowHasContent img y = false := by
  have hcnt : rowContentCount img y = 0 := by
    unfold rowContentCount
    rw [List.countP_eq_zero]
    intro x hx
    have := hall x (List.mem_range.mp hx) y hy
    simp
    omega
  unfold rowHasContent
  rw [hcnt]
  simp

/-- C7: an entirely blank buffer (all pixels luminance ≥ 240) yields zero
sections, and a buffer with a single content band `[a, b)` of height more
than 5% of the image height, surrounded by white rows, yields exactly one
full-width section spanning that band. -/
theorem C7_sections :
    (∀ img : ImageData,
      (∀ x < img.width, ∀ y < img.height, 240000 ≤ grayscale1000 (img.pixel x y)) →
      detectSections img = []) ∧
    ∀ (img : ImageData) (a b : ℕ), a < b → b < img.height →
      (∀ y < img.height, (rowHasContent img y = true ↔ (a ≤ y ∧ y < b))) →
      img.height < 20 * (b - a) →
      detectSections img = [⟨"content", 0, a, img.width, b - a⟩] := by
  constructor
  · intro img hall
    unfold detectSections
    rw [foldl_no_content img (List.range img.height) ⟨[], 0, false⟩
      (fun y hy => rowHasContent_false_of_blank img hall y (List.mem_range.mp hy)) rfl]
    rfl
  · intro img a b hab hbh hrows hbig
    have hcontent : ∀ y, a ≤ y → y < b → rowHasContent img y = true :=
      fun y h1 h2 => (hrows y (by omega)).mpr ⟨h1, h2⟩
    have hblank : ∀ y, y < img.height → ¬(a ≤ y ∧ y < b) → rowHasContent img y = false := by
      intro y h1 h2
      rcases Bool.eq_false_or_eq_true (rowHasContent img y) with h | h
      · exact absurd ((hrows y h1).mp h) h2
      · exact h
    unfold detectSections
    rw [List.range_eq_range']
    rw [range'_split 0 a img.height (by omega), List.foldl_append]
    rw [foldl_no_content img (List.range' 0 a) ⟨[], 0, false⟩
      (fun y hy => by
        have := List.mem_range'_1.mp hy
        exact hblank y (by omega) (by omega)) rfl]
    rw [show (0 + a) = a from by omega]
    rw [range'_split a 1 (img.height - a) (by omega), List.foldl_append]
    rw [show List.range' a 1 = [a] from rfl]
    simp only [List.foldl_cons, List.foldl_nil]
    rw [sectionStep_content_start img _ a (hcontent a (by omega) (by omega)) rfl]
    rw [range'_split (a + 1) (b - a - 1) (img.height - a - 1) (by omega), List.foldl_append]
    rw [foldl_content_open img (List.range' (a + 1) (b - a - 1)) _
      (fun y hy => by
        have := List.mem_range'_1.mp hy
        exact hcontent y (by omega) (by omega)) rfl]
    rw [show a + 1 + (b - a - 1) = b from by omega]
    rw [range'_split b 1 (img.height - a - 1 - (b - a - 1)) (by omega), List.foldl_append]
    rw [show List.range' b 1 = [b] from rfl]
    simp only [List.foldl_cons, List.foldl_nil]
    rw [sectionStep_close_emit img _ b (hblank b (by omega) (by omega)) rfl
      (by simpa using hbig)]
    rw [foldl_no_content img
      (List.range' (b + 1) (img.height - a - 1 - (b - a - 1) - 1)) _
      (fun y hy => by
        have := List.mem_range'_1.mp hy
        exact hblank y (by omega) (by omega)) rfl]
    simp

/-- C7 (witness): the theorem applied to the all-white 10×10 buffer and to
the 10×20 buffer whose rows 5–14 are black. -/
theorem C7_witness :
    ((∀ x < whiteImg.width, ∀ y < whiteImg.height,
        240000 ≤ grayscale1000 (whiteImg.pixel x y)) ∧
      detectSections whiteImg = []) ∧
      ((5 < 15 ∧ 15 < bandImg.height ∧
        (∀ y < bandImg.height, (rowHasContent bandImg y = true ↔ (5 ≤ y ∧ y < 15))) ∧
        bandImg.height < 20 * (15 - 5)) ∧
      detectSections bandImg = [⟨"content", 0, 5, bandImg.width, 15 - 5⟩]) :=
  ⟨⟨by decide, C7_sections.1 whiteImg (by decide)⟩,
    ⟨⟨by decide, by decide, by decide, by decide⟩,
      C7_sections.2 bandImg 5 15 (by decide) (by decide) (by decide) (by decide)⟩⟩

/-! ## Design-element scan lemmas (for the C6 development) -/

theorem runState_eta (st : RunState) (h1 : st.lineStart = -1) (h2 : st.lineLength = 0) :
    st = ⟨st.lines, -1, 0⟩ := by
  cases st
  simp_all

theorem designRowStep_dark (img : ImageData) (y : ℕ) (st : RunState) (x : ℕ)
    (h : grayscale1000 (img.pixel x y) < 200000) :
    designRowStep img y st x =
      ⟨st.lines, if st.lineStart = -1 then (x : ℤ) else st.lineStart, st.lineLength + 1⟩ := by
  unfold designRowStep
  rw [if_pos h]

theorem designRowStep_bright_reset (img : ImageData) (y : ℕ) (st : RunState) (x : ℕ)
    (h : ¬ grayscale1000 (img.pixel x y) < 200000) :
    (designRowStep img y st x).lineStart = -1 ∧ (designRowStep img y st x).lineLength = 0 := by
  unfold designRowStep
  rw [if_neg h]
  split <;> simp

theorem designRowStep_emit (img : ImageData) (y : ℕ) (st : RunState) (x : ℕ)
    (h : ¬ grayscale1000 (img.pixel x y) < 200000) (hq : img.width < 10 * st.lineLength) :
    designRowStep img y st x = ⟨st.lines ++ [⟨st.lineStart, y, st.lineLength, 1⟩], -1, 0⟩ := by
  unfold designRowStep
  rw [if_neg h, if_pos hq]

theorem foldl_dark_extend (img : ImageData) (y s : ℕ) (L : List HLine) :
    ∀ m k : ℕ, 1 ≤ k →
      (∀ x, s + k ≤ x → x < s + k + m → grayscale1000 (img.pixel x y) < 200000) →
      (List.range' (s + k) m).foldl (designRowStep img y) ⟨L, (s : ℤ), k⟩ =
        ⟨L, (s : ℤ), k + m⟩ := by
  intro m
  induction m with
  | zero => intro k _ _; rfl
  | succ m ih =>
    intro k hk hdark
    rw [show k + (m + 1) = k + 1 + m from by omega]
    rw [show List.range' (s + k) (m + 1) = (s + k) :: List.range' (s + k + 1) m from rfl]
    simp only [List.foldl_cons]
    rw [designRowStep_dark img y _ _ (hdark (s + k) (by omega) (by omega))]
    dsimp only
    rw [if_neg (by omega : ¬ (s : ℤ) = -1)]
    have hrec := ih (k + 1) (by omega) (fun x h1 h2 => hdark x (by omega) (by omega))
    rw [show s + (k + 1) = s + k + 1 from by omega] at hrec
    exact hrec

theorem foldl_dark_run (img : ImageData) (y s len : ℕ) (L : List HLine)
    (hlen : 0 < len)
    (hdark : ∀ x, s ≤ x → x < s + len → grayscale1000 (img.pixel x y) < 200000) :
    (List.range' s len).foldl (designRowStep img y) ⟨L, -1, 0⟩ = ⟨L, (s : ℤ), len⟩ := by
  obtain ⟨m, rfl⟩ : ∃ m, len = m + 1 := ⟨len - 1, by omega⟩
  rw [show List.range' s (m + 1) = s :: List.range' (s + 1) m from rfl]
  simp only [List.foldl_cons]
  rw [designRowStep_dark img y _ s (hdark s (by omega) (by omega))]
  dsimp only
  rw [if_pos rfl]
  have hrec := foldl_dark_extend img y s L m 1 (by omega)
    (fun x h1 h2 => hdark x (by omega) (by omega))
  rw [Nat.add_comm 1 m] at hrec
  exact hrec

theorem fold_prefix_reset (img : ImageData) (y s : ℕ) (L : List HLine)
    (hstart : s = 0 ∨ ¬ grayscale1000 (img.pixel (s - 1) y) < 200000) :
    ∃ L2, (List.range' 0 s).foldl (designRowStep img y) ⟨L, -1, 0⟩ = ⟨L2, -1, 0⟩ := by
  by_cases hs : s = 0
  · subst hs
    exact ⟨L, rfl⟩
  · have hb : ¬ grayscale1000 (img.pixel (s - 1) y) < 200000 := hstart.resolve_left hs
    rw [range'_split 0 (s - 1) s (by omega), List.foldl_append,
      show 0 + (s - 1) = s - 1 from by omega, show s - (s - 1) = 1 from by omega,
      show List.range' (s - 1) 1 = [s - 1] from rfl]
    simp only [List.foldl_cons, List.foldl_nil]
    obtain ⟨h1, h2⟩ := designRowStep_bright_reset img y
      ((List.range' 0 (s - 1)).foldl (designRowStep img y) ⟨L, -1, 0⟩) (s - 1) hb
    exact ⟨_, runState_eta _ h1 h2⟩

theorem designRowStep_lines_extend (img : ImageData) (y : ℕ) (st : RunState) (x : ℕ) :
    ∃ t, (designRowStep img y st x).lines = st.lines ++ t := by
  unfold designRowStep
  split
  · exact ⟨[], by simp⟩
  · split
    · exact ⟨_, rfl⟩
    · exact ⟨[], by simp⟩

theorem foldl_designRow_lines_extend (img : ImageData) (y : ℕ) (l : List ℕ) :
    ∀ st : RunState, ∃ t, (l.foldl (designRowStep img y) st).lines = st.lines ++ t := by
  induction l with
  | nil => intro st; exact ⟨[], by simp⟩
  | cons x l ih =>
    intro st
    simp only [List.foldl_cons]
    obtain ⟨t1, h1⟩ := designRowStep_lines_extend img y st x
    obtain ⟨t2, h2⟩ := ih (designRowStep img y st x)
    exact ⟨t1 ++ t2, by rw [h2, h1, List.append_assoc]⟩

theorem scanDesignRow_extend (img : ImageData) (L : List HLine) (y : ℕ) :
    ∃ t, scanDesignRow img L y = L ++ t := by
  unfold scanDesignRow
  exact foldl_designRow_lines_extend img y (List.range img.width) ⟨L, -1, 0⟩

theorem foldl_scanRows_extend (img : ImageData) (l : List ℕ) :
    ∀ L : List HLine, ∃ t, l.foldl (scanDesignRow img) L = L ++ t := by
  induction l with
  | nil => intro L; exact ⟨[], by simp⟩
  | cons y l ih =>
    intro L
    simp only [List.foldl_cons]
    obtain ⟨t1, h1⟩ := scanDesignRow_extend img L y
    obtain ⟨t2, h2⟩ := ih (scanDesignRow img L y)
    exact ⟨t1 ++ t2, by rw [h2, h1, List.append_assoc]⟩

theorem scanDesignRow_mem (img : ImageData) (L : List HLine) (y s len : ℕ)
    (hlen : 0 < len) (hin : s + len < img.width)
    (hdark : ∀ x, s ≤ x → x < s + len → grayscale1000 (img.pixel x y) < 200000)
    (hstart : s = 0 ∨ ¬ grayscale1000 (img.pixel (s - 1) y) < 200000)
    (hend : ¬ grayscale1000 (img.pixel (s + len) y) < 200000)
    (hqual : img.width < 10 * len) :
    (⟨(s : ℤ), y, len, 1⟩ : HLine) ∈ scanDesignRow img L y := by
  unfold scanDesignRow
  rw [List.range_eq_range']
  rw [range'_split 0 s img.width (by omega), List.foldl_append,
    show 0 + s = s from by omega]
  obtain ⟨L2, hL2⟩ := fold_prefix_reset img y s L hstart
  rw [hL2]
  rw [range'_split s len (img.width - s) (by omega), List.foldl_append]
  rw [foldl_dark_run img y s len L2 hlen hdark]
  rw [range'_split (s + len) 1 (img.width - s - len) (by omega), List.foldl_append,
    show List.range' (s + len) 1 = [s + len] from rfl]
  simp only [List.foldl_cons, List.foldl_nil]
  rw [designRowStep_emit img y _ _ hend hqual]
  obtain ⟨t, ht⟩ := foldl_designRow_lines_extend img y
    (List.range' (s + len + 1) (img.width - s - len - 1)) _
  rw [ht]
  simp

/-! ## Claim C6 -/

/-- C6 (counterexample): the all-black 20×1 row carries one maximal dark run
of length 20 > 10% of the width reaching the last pixel of the row, yet
`detectDesignElements` emits nothing — a run still open at the end of the
`x` loop is never flushed. -/
theorem C6_counterexample :
    (∀ x < 20, grayscale1000 (darkRowImg.pixel x 0) < 200000) ∧
      darkRowImg.width < 10 * 20 ∧
      (detectDesignElements darkRowImg).horizontalLines = [] :=
  ⟨by decide, by decide, by decide⟩

/-- C6 (amended): in every scanned row (y < height, y ≡ 0 mod 5), every
maximal run of consecutive dark pixels that is TERMINATED by a bright pixel
before the end of the row and whose length exceeds 10% of the image width
is emitted as `{x: runStart, y: row, length, thickness: 1}`; a qualifying
run that extends to the last pixel of the row is silently discarded (see
the counterexample). -/
theorem C6_interior_runs_emitted (img : ImageData) (y s len : ℕ)
    (hy : y < img.height) (hy5 : y % 5 = 0)
    (hlen : 0 < len) (hin : s + len < img.width)
    (hdark : ∀ x, s ≤ x → x < s + len → grayscale1000 (img.pixel x y) < 200000)
    (hstart : s = 0 ∨ ¬ grayscale1000 (img.pixel (s - 1) y) < 200000)
    (hend : ¬ grayscale1000 (img.pixel (s + len) y) < 200000)
    (hqual : img.width < 10 * len) :
    (⟨(s : ℤ), y, len, 1⟩ : HLine) ∈ (detectDesignElements img).horizontalLines := by
  unfold detectDesignElements
  dsimp only
  have hymem : y ∈ designRows img := by
    unfold designRows
    rw [List.mem_filter]
    exact ⟨List.mem_range.mpr hy, by simpa using hy5⟩
  obtain ⟨l1, l2, hsplit⟩ := List.append_of_mem hymem
  rw [hsplit, List.foldl_append]
  simp only [List.foldl_cons]
  obtain ⟨t, ht⟩ := foldl_scanRows_extend img l2
    (scanDesignRow img (l1.foldl (scanDesignRow img) []) y)
  rw [ht]
  refine List.mem_append.mpr (Or.inl ?_)
  exact scanDesignRow_mem img _ y s len hlen hin hdark hstart hend hqual

/-- C6 (witness): the amended theorem applied to the 20×1 buffer whose
row is dark exactly on `[2, 15)`: the run `{x: 2, y: 0, length: 13}` is
emitted. -/
theorem C6_witness :
    (0 < interiorRunImg.height ∧ 0 % 5 = 0 ∧ 0 < 13 ∧ 2 + 13 < interiorRunImg.width ∧
      (∀ x, 2 ≤ x → x < 2 + 13 → grayscale1000 (interiorRunImg.pixel x 0) < 200000) ∧
      ¬ grayscale1000 (interiorRunImg.pixel (2 - 1) 0) < 200000 ∧
      ¬ grayscale1000 (interiorRunImg.pixel (2 + 13) 0) < 200000 ∧
      interiorRunImg.width < 10 * 13) ∧
      (⟨(2 : ℤ), 0, 13, 1⟩ : HLine) ∈ (detectDesignElements interiorRunImg).horizontalLines :=
  ⟨⟨by decide, by decide, by decide, by decide,
      by intro x h1 h2; interval_cases x <;> decide, by decide, by decide, by decide⟩,
    C6_interior_runs_emitted interiorRunImg 0 2 13 (by decide) (by decide) (by decide)
      (by decide) (by intro x h1 h2; interval_cases x <;> decide)
      (Or.inr (by decide)) (by decide) (by decide)⟩

/-! ## Claim C8 -/

/-- C8 (counterexample): analyzing an image after a PDF does NOT yield an
empty fonts list — the image path never writes `fonts`, so the PDF run's
font list survives into the image run's result. -/
theorem C8_counterexample :
    (analyzeImagePure (analyzePDFPure initialResults onePixImg ["Arial"]) onePixImg).fonts
        = ["Arial"] ∧
      (["Arial"] : List String) ≠ [] := by
  constructor
  · show analyzeTextContentFonts ["Arial"] = ["Arial"]
    decide
  · simp

/-- C8 (amended): each pixel-analysis run overwrites `dimensions`,
`colorPalette`, `sections`, `textBlocks`, `grid`, `margins` and
`designElements` with values determined solely by the new input, but
`fonts` (written only on the PDF path) and the never-written `imageAreas`
carry over from the previous state; `reset()` restores the pristine initial
state. -/
theorem C8_state_dependence (st : AnalysisResults) (img : ImageData) (items : List String) :
    analyzeImagePure st img =
        { analyzeImagePure initialResults img with
          fonts := st.fonts, imageAreas := st.imageAreas } ∧
      analyzePDFPure st img items =
        { analyzePDFPure initialResults img items with imageAreas := st.imageAreas } ∧
      resetPure = initialResults :=
  ⟨rfl, rfl, rfl⟩

/-! ## Claim C1 -/

/-- C1 (counterexample): `image/gif` is not in the supported set
{image/jpeg, image/jpg, image/png, application/pdf}, yet `analyzeTemplate`
does not fail with the unsupported-format error — it dispatches to the
image-analysis path, because the source only checks
`file.type.startsWith('image/')`. -/
theorem C1_counterexample :
    ("image/gif" ∉ supportedMimeTypes) ∧
      analyzeTemplate "image/gif" initialResults onePixImg [] ≠
        Except.error "Unsupported file type" := by
  constructor
  · decide
  · have h : strStartsWith "image/gif" "image/" = true := by decide
    intro hc
    unfold analyzeTemplate at hc
    rw [h] at hc
    simp at hc

/-- C1 (amended): `analyzeTemplate` fails immediately with the
`'Unsupported file type'` error exactly for MIME types that neither start
with `image/` nor equal `application/pdf`; the four-type supported set is
enforced by the caller's `isValidTemplateFile`, not by `analyzeTemplate`
(so e.g. `image/gif` is dispatched to pixel analysis). On the error branch
no analysis value is produced at all. -/
theorem C1_unsupported_iff (mime : String) (st : AnalysisResults) (img : ImageData)
    (items : List String) :
    analyzeTemplate mime st img items = Except.error "Unsupported file type" ↔
      (strStartsWith mime "image/" = false ∧ mime ≠ "application/pdf") := by
  unfold analyzeTemplate
  by_cases h1 : strStartsWith mime "image/" = true
  · rw [if_pos h1]
    simp [h1]
  · have h1' : strStartsWith mime "image/" = false := by simpa using h1
    rw [if_neg (by simp [h1'])]
    by_cases h2 : mime = "application/pdf"
    · rw [if_pos h2]
      simp [h2]
    · rw [if_neg h2]
      simp [h1', h2]

end ResumeAnalyzer
